import Mathlib

/-!
Shallow embedding of the image-transformation pipeline of `thelper`
(`src/thelper/transforms.py` and `src/thelper/utils.py`), together with
theorems settling the specification claims about it.

Modelling conventions:
* a numpy image of rank 2 or 3 is `Img a`: spatial dimensions plus a pixel
  function (the pixel type is kept abstract and may itself be a channel
  vector);
* Python `int` is `Int`, Python `float` is idealized as `Rat` (IEEE rounding
  is not modelled; claims about float precision are settled in exact
  arithmetic);
* Python `//` and `%` are `Int` `/` and `%` (Euclidean division, which is
  floor-style division for the positive divisors appearing here, matching
  Python), and the built-in `round` is round-half-to-even;
* code paths that raise a Python exception are `Except.error`.
-/

/-- Python built-in `round` on a rational (banker's rounding: half to even). -/
def pyRound (q : ℚ) : ℤ :=
  let f := ⌊q⌋
  if q - f < 1/2 then f
  else if q - f > 1/2 then f + 1
  else if f % 2 = 0 then f else f + 1

/-- Effective bound of a Python slice index `i` for a sequence of length `n`:
negative indices count from the end, and the result is clamped into `[0, n]`. -/
def effIdx (i : ℤ) (n : ℕ) : ℕ :=
  if i < 0 then (n + i).toNat else min i.toNat n

/-- A rank-2-or-3 numpy image: spatial size plus pixel lookup. The pixel type
`a` is abstract for the geometric operations (it may be a channel vector). -/
structure Img (a : Type) where
  H : ℕ
  W : ℕ
  pix : ℕ → ℕ → a

/-- Embeds `cv2.copyMakeBorder` (external primitive), constant-fill flavour: pads
`top`/`bottom`/`left`/`right` pixels around the image. Shape contract and
interior pixels are what the claims rely on; the fill value models
`cv2.BORDER_CONSTANT` (other border modes only change padded pixel values,
never the shape). -/
def copyMakeBorder (img : Img a) (top bottom left right : ℕ) (bval : a) : Img a :=
  ⟨img.H + top + bottom, img.W + left + right, fun i j =>
    if top ≤ i ∧ i < top + img.H ∧ left ≤ j ∧ j < left + img.W
    then img.pix (i - top) (j - left) else bval⟩

/-- Python basic slicing `image[t:b, l:r, ...]` on the two spatial axes. -/
def pySlice (img : Img a) (t b l r : ℤ) : Img a :=
  ⟨effIdx b img.H - effIdx t img.H, effIdx r img.W - effIdx l img.W,
   fun i j => img.pix (effIdx t img.H + i) (effIdx l img.W + j)⟩

/-- Embeds `thelper.utils.safe_crop`: pads the image first when the requested
rectangle sticks out of its bounds, then slices. `tl` and `br` are `(x, y)`
pixel coordinates. -/
def safe_crop (img : Img a) (tl br : ℤ × ℤ) (bval : a) : Img a :=
  if tl.1 < 0 ∨ tl.2 < 0 ∨ br.1 > (img.W : ℤ) ∨ br.2 > (img.H : ℤ) then
    let padded := copyMakeBorder img (max (-tl.2) 0).toNat (max (br.2 - img.H) 0).toNat
      (max (-tl.1) 0).toNat (max (br.1 - img.W) 0).toNat bval
    let xs : ℤ × ℤ := if tl.1 < 0 then (0, br.1 - tl.1) else (tl.1, br.1)
    let ys : ℤ × ℤ := if tl.2 < 0 then (0, br.2 - tl.2) else (tl.2, br.2)
    pySlice padded ys.1 ys.2 xs.1 xs.2
  else
    pySlice img tl.2 br.2 tl.1 br.1

/-- A crop size: absolute `(width, height)` integers, or image-relative
rational fractions. -/
inductive CropSize where
  | abs (w h : ℤ)
  | rel (w h : ℚ)

/-- Parameters of `CenterCrop` after construction. -/
structure CenterCropT (a : Type) where
  size : CropSize
  borderval : a

/-- Embeds `CenterCrop.__init__` validation: both size components positive. -/
def CenterCrop.init (size : CropSize) (bval : a) : Except String (CenterCropT a) :=
  match size with
  | .abs w h => if w ≤ 0 ∨ h ≤ 0 then .error "crop dimensions must be positive" else .ok ⟨size, bval⟩
  | .rel w h => if w ≤ 0 ∨ h ≤ 0 then .error "crop dimensions must be positive" else .ok ⟨size, bval⟩

/-- Embeds `CenterCrop.__call__`: resolves the absolute crop size, centers the box
on the image, and delegates to `safe_crop`. -/
def CenterCrop.call (t : CenterCropT a) (img : Img a) : Img a :=
  let ch : ℤ := match t.size with
    | .abs _ h => h
    | .rel _ h => pyRound (h * img.H)
  let cw : ℤ := match t.size with
    | .abs w _ => w
    | .rel w _ => pyRound (w * img.W)
  let tl : ℤ × ℤ := ((img.W : ℤ) / 2 - cw / 2, (img.H : ℤ) / 2 - ch / 2)
  safe_crop img tl (tl.1 + cw, tl.2 + ch) t.borderval

/-- A Python numeric scalar: `int` or `float` (floats idealized as `Rat`). -/
inductive PyNum where
  | pint (z : ℤ)
  | pfloat (q : ℚ)

/-- Embeds `isinstance(x, float)` for a Python numeric scalar. -/
def PyNum.isFloat : PyNum → Bool
  | .pfloat _ => true
  | .pint _ => false

/-- Numeric value of a Python scalar. -/
def PyNum.val : PyNum → ℚ
  | .pint z => z
  | .pfloat q => q

/-- A size argument as accepted by `Tile.__init__`: a two-element tuple/list
or a single scalar. -/
inductive PySizeArg where
  | pair2 (s0 s1 : PyNum)
  | scalar (s : PyNum)

/-- The tile-size validation of `Tile.__init__`: a pair must have both
components of the same numeric kind; a scalar is duplicated. -/
def resolveTileSize : PySizeArg → Except String CropSize
  | .pair2 (.pint w) (.pint h) => .ok (.abs w h)
  | .pair2 (.pfloat w) (.pfloat h) => .ok (.rel w h)
  | .pair2 _ _ => .error "expected tile size pair elements to be the same type (int or float)"
  | .scalar (.pint s) => .ok (.abs s s)
  | .scalar (.pfloat s) => .ok (.rel s s)

/-- Parameters of `Tile` after construction. -/
structure TileT (a : Type) where
  tile_size : CropSize
  tile_overlap : ℚ
  min_mask_iou : ℚ
  offset_overlap : Bool
  borderval : a

/-- Embeds `Tile.__init__`: validates the tile size, then the overlap
(float in `[0,1)`), then `min_mask_iou`. Faithful to the source, the third
disjunct of the `min_mask_iou` check tests `tile_overlap > 1` (the literal
condition in the code), not `min_mask_iou > 1`. -/
def Tile.init (bval : a) (ts : PySizeArg) (tile_overlap miou : PyNum)
    (offset_overlap : Bool) : Except String (TileT a) :=
  match resolveTileSize ts with
  | .error e => .error e
  | .ok sz =>
    if ¬tile_overlap.isFloat ∨ tile_overlap.val < 0 ∨ 1 ≤ tile_overlap.val then
      .error "invalid tile overlap (should be float in [0,1[)"
    else if ¬miou.isFloat ∨ miou.val < 0 ∨ 1 < tile_overlap.val then
      .error "invalid minimum mask IoU score (should be float in [0,1])"
    else .ok ⟨sz, tile_overlap.val, miou.val, offset_overlap, bval⟩

/-- A tile rectangle `(x, y, w, h)` in source-image pixel space. -/
structure Rect where
  x : ℤ
  y : ℤ
  w : ℤ
  h : ℤ
deriving DecidableEq, Repr

/-- Embeds `np.count_nonzero` over a rank-2 array. -/
def countNonzero (img : Img ℕ) : ℕ :=
  ((List.range img.H).map fun i =>
    ((List.range img.W).filter fun j => img.pix i j ≠ 0).length).sum

/-- Python `range(a, b)` as a list of integers. -/
def intRange (a b : ℤ) : List ℤ :=
  (List.range (b - a).toNat).map fun k => a + k

/-- The values visited by a `while v <= bound: ...; v += s` loop started at
`a`, for a positive step `s` (the tiling loops guarantee `s >= 1`). -/
def stepRange (a bound s : ℤ) : List ℤ :=
  if s ≤ 0 then []
  else (List.range ((bound - a) / s + 1).toNat).map fun k => a + k * s

/-- Per-axis pixel overlap of `Tile._get_tile_rects`:
`int(round(tile_size * tile_overlap))`. -/
def tileOverlapPx (ts : ℤ) (ovr : ℚ) : ℤ :=
  pyRound ((ts : ℚ) * ovr)

/-- Per-axis grid step of `Tile._get_tile_rects`:
`max(tile_size - (overlap // 2) * 2, 1)`. -/
def tileStep (ts : ℤ) (ovr : ℚ) : ℤ :=
  max (ts - tileOverlapPx ts ovr / 2 * 2) 1

/-- The mask-acceptance test of `Tile._get_tile_rects`: the nonzero count of
the mask crop at `(c, r)` must reach the required area. -/
def tileMaskOk (m : Img ℕ) (req : ℚ) (tw th c r : ℤ) : Bool :=
  decide (req ≤ (countNonzero (safe_crop m (c, r) (c + tw, r + th) 0) : ℚ))

/-- The grid walk of `Tile._get_tile_rects` (the two nested `while` loops):
row-major from the anchor `oc`, keeping a cell if there is no mask or if the
mask-covered count of the cell reaches the required area. -/
def tileGrid (oc : ℤ × ℤ) (height width tw th sx sy : ℤ) (ooff : ℤ × ℤ)
    (mask : Option (Img ℕ)) (req : ℚ) : List Rect :=
  (stepRange oc.2 (height - ooff.2 - th) sy).flatMap fun r =>
    (stepRange oc.1 (width - ooff.1 - tw) sx).filterMap fun c =>
      match mask with
      | some m => if tileMaskOk m req tw th c r then some ⟨c, r, tw, th⟩ else none
      | none => some ⟨c, r, tw, th⟩

/-- Embeds `Tile._get_tile_rects`: resolves tile size, overlap, offset, step and
required mask area; with a mask, searches row-major for the first accepted
placement and anchors the grid at its offset modulo the step size, returning
no tiles when the search fails; walks the grid from the anchor. -/
def Tile.getTileRects (t : TileT a) (img : Img a) (mask : Option (Img ℕ)) :
    Except String (List Rect) :=
  let height : ℤ := img.H
  let width : ℤ := img.W
  let tsize : ℤ × ℤ := match t.tile_size with
    | .abs w h => (w, h)
    | .rel w h => (pyRound (w * width), pyRound (h * height))
  let ooff : ℤ × ℤ :=
    if t.offset_overlap
    then (-tileOverlapPx tsize.1 t.tile_overlap / 2, -tileOverlapPx tsize.2 t.tile_overlap / 2)
    else (0, 0)
  let step : ℤ × ℤ := (tileStep tsize.1 t.tile_overlap, tileStep tsize.2 t.tile_overlap)
  let req : ℚ := (tsize.1 * tsize.2 : ℤ) * t.min_mask_iou
  match mask with
  | some m =>
    if height ≠ m.H ∨ width ≠ m.W then .error "image and mask dimensions mismatch"
    else
      -- the `mask.ndim != 2` check always passes: masks are rank-2 by type
      let found := ((intRange ooff.2 (height - ooff.2 - tsize.2 + 1)).flatMap fun r =>
          (intRange ooff.1 (width - ooff.1 - tsize.1 + 1)).map fun c => (r, c)).find?
        fun rc => tileMaskOk m req tsize.1 tsize.2 rc.2 rc.1
      match found with
      | none => .ok []
      | some (row, col) =>
        let oc : ℤ × ℤ := (ooff.1 + (col - ooff.1) % step.1, ooff.2 + (row - ooff.2) % step.2)
        .ok (tileGrid oc height width tsize.1 tsize.2 step.1 step.2 ooff (some m) req)
  | none =>
    .ok (tileGrid ooff height width tsize.1 tsize.2 step.1 step.2 ooff none req)

/-- Embeds `Tile.__call__`: one `safe_crop` of the image per tile rectangle. -/
def Tile.call (t : TileT a) (img : Img a) (mask : Option (Img ℕ)) :
    Except String (List (Img a)) :=
  (Tile.getTileRects t img mask).map fun rects =>
    rects.map fun rect =>
      safe_crop img (rect.x, rect.y) (rect.x + rect.w, rect.y + rect.h) t.borderval

/-- Embeds `Tile.count_tiles`: the length of the rectangle list of the same
placement algorithm. -/
def Tile.count_tiles (t : TileT a) (img : Img a) (mask : Option (Img ℕ)) :
    Except String ℕ :=
  (Tile.getTileRects t img mask).map List.length

/-- Parameters of `NormalizeZeroMeanUnitVar`: one mean and one standard
deviation per channel (1-d arrays by type). -/
structure NormalizeZeroMeanUnitVarT where
  mean : List ℚ
  std : List ℚ

/-- Embeds `NormalizeZeroMeanUnitVar.__init__`: sizes must match and the standard
deviations must all be non-zero. The `astype(out_type)` casts are identities
in the exact-rational idealization of floats. -/
def NormalizeZeroMeanUnitVar.init (mean std : List ℚ) :
    Except String NormalizeZeroMeanUnitVarT :=
  if mean.length ≠ std.length then .error "normalization params size mismatch"
  else if std.any fun d => decide (d = 0) then .error "normalization std must be non-null"
  else .ok ⟨mean, std⟩

/-- Per-channel broadcast of `(sample - a) / b` over one channel vector. -/
def normFwd : List ℚ → List ℚ → List ℚ → List ℚ
  | v :: vs, m :: ms, s :: ss => (v - m) / s :: normFwd vs ms ss
  | _, _, _ => []

/-- Per-channel broadcast of `sample * b + a` over one channel vector. -/
def normInv : List ℚ → List ℚ → List ℚ → List ℚ
  | v :: vs, m :: ms, s :: ss => (v * s + m) :: normInv vs ms ss
  | _, _, _ => []

/-- Embeds `NormalizeZeroMeanUnitVar.__call__` on a sample viewed as a list of
channel vectors (numpy broadcasting over the leading axes): per channel,
`(s - mean) / std`. -/
def NormalizeZeroMeanUnitVar.call (t : NormalizeZeroMeanUnitVarT)
    (sample : List (List ℚ)) : List (List ℚ) :=
  sample.map fun px => normFwd px t.mean t.std

/-- Embeds `NormalizeZeroMeanUnitVar.invert`: per channel, `s * std + mean`. -/
def NormalizeZeroMeanUnitVar.invert (t : NormalizeZeroMeanUnitVarT)
    (sample : List (List ℚ)) : List (List ℚ) :=
  sample.map fun px => normInv px t.mean t.std

/-- Parameters of `NormalizeMinMax`: per-channel minimum, maximum, and the
difference `max - min` precomputed at construction. -/
structure NormalizeMinMaxT where
  minv : List ℚ
  maxv : List ℚ
  diff : List ℚ

/-- Embeds `NormalizeMinMax.__init__`: sizes must match, `diff = max - min` must be
non-zero per channel (scalar arguments are expanded to one channel by the
source's `expand_dims`, so lists model every accepted input). -/
def NormalizeMinMax.init (minv maxv : List ℚ) : Except String NormalizeMinMaxT :=
  if minv.length ≠ maxv.length then .error "normalization params size mismatch"
  else if (List.zipWith (fun a b => a - b) maxv minv).any fun d => decide (d = 0) then
    .error "normalization diff must be non-null"
  else .ok ⟨minv, maxv, List.zipWith (fun a b => a - b) maxv minv⟩

/-- Embeds `NormalizeMinMax.__call__`: per channel, `(s - min) / diff`. -/
def NormalizeMinMax.call (t : NormalizeMinMaxT) (sample : List (List ℚ)) :
    List (List ℚ) :=
  sample.map fun px => normFwd px t.minv t.diff

/-- Embeds `NormalizeMinMax.invert`: per channel, `s * diff + min`. -/
def NormalizeMinMax.invert (t : NormalizeMinMaxT) (sample : List (List ℚ)) :
    List (List ℚ) :=
  sample.map fun px => normInv px t.minv t.diff

/-- A Python sample as passed through `Duplicator`: an opaque payload or a
list of samples (`isinstance(sample, list)` is observable behaviour). -/
inductive PySample (a : Type) where
  | item (x : a)
  | list (l : List (PySample a))

/-- Parameters of `Duplicator` after construction. -/
structure DuplicatorT where
  count : ℕ
  deep : Bool

/-- Embeds `Duplicator.__init__`: the copy count must be strictly positive. -/
def Duplicator.init (count : ℤ) (deep : Bool) : Except String DuplicatorT :=
  if count ≤ 0 then .error "invalid copy count" else .ok ⟨count.toNat, deep⟩

/-- Embeds `Duplicator.__call__`: a list of `count` copies (`copy.copy` and
`copy.deepcopy` are both identities in this value semantics). -/
def Duplicator.call (t : DuplicatorT) (s : PySample a) : PySample a :=
  .list (List.replicate t.count s)

/-- Embeds `Duplicator.invert`: requires a list of exactly `count` elements and
returns its first element (`sample[0]` on an empty list would be a Python
IndexError, unreachable since `count > 0`). -/
def Duplicator.invert (t : DuplicatorT) (s : PySample a) : Except String (PySample a) :=
  match s with
  | .item _ => .error "invalid sample type (should be list)"
  | .list l =>
    if l.length = t.count then
      match l with
      | x :: _ => .ok x
      | [] => .error "list index out of range"
    else .error "invalid sample list length"

/-- A pipeline stage as seen by `Compose`: a forward callable plus an
optional `invert` capability (the duck-typed `hasattr(t, "invert")` probe of
the source; stages whose `invert` merely raises are modelled by an invert
function returning `.error`, stages with no `invert` attribute by `none`). -/
structure TransformOp (s : Type) where
  call : s → Except String s
  inv? : Option (s → Except String s)

/-- One step of `Compose.invert`: raise when the stage has no `invert`
attribute, otherwise apply it. -/
def invertStep (smp : s) (t : TransformOp s) : Except String s :=
  match t.inv? with
  | none => .error "missing invert op for transform"
  | some f => f smp

/-- Embeds `Compose.invert`: folds `invert` over the stages in reverse construction
order, propagating the first failure. -/
def Compose.invert (ts : List (TransformOp s)) (smp : s) : Except String s :=
  ts.reverse.foldlM invertStep smp

/-- A stage whose `invert` is the identity (e.g. the `Transpose` of a trivial
permutation); used to witness C7. -/
def invertibleOp : TransformOp ℤ :=
  ⟨fun x => .ok x, some fun x => .ok x⟩

/-- A stage without an `invert` attribute (e.g. a bare torchvision callable);
used to witness C7. -/
def nonInvertibleOp : TransformOp ℤ :=
  ⟨fun x => .ok x, none⟩

/-- A numpy image of rank 2 (`chans = none`) or rank 3 (`chans = some c`)
with an explicit channel count, as consumed by `Resize.__call__`. -/
structure NdImg (a : Type) where
  H : ℕ
  W : ℕ
  chans : Option ℕ
  pix : ℕ → ℕ → ℕ → a

/-- Parameters of `Resize` after construction. -/
structure ResizeT where
  dsize : ℤ × ℤ
  fx : ℚ
  fy : ℚ
  buffer : Bool

/-- Embeds `Resize.__init__`: scale factors and destination size must be
non-negative and not all zero. -/
def Resize.init (dsize : ℤ × ℤ) (fx fy : ℚ) (buffer : Bool) : Except String ResizeT :=
  if fx < 0 ∨ fy < 0 then
    .error "scale factors should be null (ignored) or positive"
  else if dsize.1 < 0 ∨ dsize.2 < 0 then
    .error "destination image size should be null (ignored) or positive"
  else if fx = 0 ∧ fy = 0 ∧ dsize.1 = 0 ∧ dsize.2 = 0 then
    .error "need to specify either destination size or scale factor(s)"
  else .ok ⟨dsize, fx, fy, buffer⟩

/-- Embeds `cv2.resize` (external primitive): output spatial size is `dsize`, or
`(round(fy*H), round(fx*W))` when `dsize` is `(0, 0)`; rank and channel
count are preserved. Pixel values stand in for the interpolation kernel via
index scaling; only the shape contract is relied on. -/
def cvResize (img : NdImg a) (dsize : ℤ × ℤ) (fx fy : ℚ) : NdImg a :=
  let outW : ℕ := if dsize = (0, 0) then (pyRound (fx * img.W)).toNat else dsize.1.toNat
  let outH : ℕ := if dsize = (0, 0) then (pyRound (fy * img.H)).toNat else dsize.2.toNat
  ⟨outH, outW, img.chans,
    fun i j c => img.pix (i * img.H / max outH 1) (j * img.W / max outW 1) c⟩

/-- Embeds `Resize.__call__` (buffer-disabled configuration; the buffered path only
changes allocation, and the branch below errors before any buffer use): a
rank-2 result is rank-normalized to `H x W x 1`; images with more than 4
channels reach the split-resize branch, whose first loop iteration evaluates
`cv.resize(slice[idx], ...)` — `slice` being the Python built-in type, not
the `slices` list — and raises a TypeError. -/
def Resize.call (t : ResizeT) (img : NdImg a) : Except String (NdImg a) :=
  -- the `sample.ndim` guard accepts rank 2 and 3, which the type guarantees
  match img.chans with
  | none =>
    let dst := cvResize img t.dsize t.fx t.fy
    -- dst.ndim == 2 here, so the result is expanded to H x W x 1
    .ok { dst with chans := some 1 }
  | some c =>
    if c ≤ 4 then
      .ok (cvResize img t.dsize t.fx t.fy)
    else
      .error "TypeError: type object is not subscriptable"

/-- A numpy array of arbitrary rank: a shape plus a value function on index
lists. -/
structure NdArray (a : Type) where
  shape : List ℕ
  val : List ℕ → a

/-- Writes `vals[k]` into position `ax[k]` of a zero-initialized list of
length `ax.length`, for each `k` in order: the index bookkeeping shared by
`np.transpose` and the `axes_inv`-building loop of `Transpose.__init__` (the
source initializes with `None` placeholders; for the permutations the
validation accepts, every slot is overwritten). -/
def permAssign (ax vals : List ℕ) : List ℕ :=
  (List.range ax.length).foldl (fun acc k => acc.set (ax.getD k 0) (vals.getD k 0))
    (List.replicate ax.length 0)

/-- Embeds `np.transpose(a, ax)` (external primitive): `result.shape[k] =
a.shape[ax[k]]`, and `result[idx] = a[j]` where `j[ax[k]] = idx[k]`. -/
def npTranspose (arr : NdArray a) (ax : List ℕ) : NdArray a :=
  ⟨ax.map fun k => arr.shape.getD k 0, fun idx => arr.val (permAssign ax idx)⟩

/-- Parameters of `Transpose`: the axes, and the inverse permutation computed at
construction. -/
structure TransposeT where
  axes : List ℕ
  axes_inv : List ℕ

/-- Embeds `Transpose.__init__`: rejects out-of-range axis entries
(`np.any(axes >= axes.size)`; the rank-1 check holds by type), then stores
the inverse permutation built by `axes_inv[axes[i]] = i`. -/
def Transpose.init (axes : List ℕ) : Except String TransposeT :=
  if axes.any fun k => decide (axes.length ≤ k) then .error "oob dim in axes"
  else .ok ⟨axes, permAssign axes (List.range axes.length)⟩

/-- Embeds `Transpose.__call__`: `np.transpose(sample, axes)`. -/
def Transpose.call (t : TransposeT) (arr : NdArray a) : NdArray a :=
  npTranspose arr t.axes

/-- Embeds `Transpose.invert`: `np.transpose(sample, axes_inv)`. -/
def Transpose.invert (t : TransposeT) (arr : NdArray a) : NdArray a :=
  npTranspose arr t.axes_inv

/-- Numpy array equality: same shape, and the same entry at every index
tuple of the array's rank. -/
def NdArray.equiv (x y : NdArray a) : Prop :=
  x.shape = y.shape ∧
    ∀ idx : List ℕ, idx.length = x.shape.length → x.val idx = y.val idx

/-- A concrete 2x3x4 array used to witness the `Transpose` round trip. -/
def transposeDemoArr : NdArray ℕ :=
  ⟨[2, 3, 4], fun idx => idx.sum⟩

/-- The `input_size` configurations accepted by `RandomResizedCrop.__init__`:
a scalar pair of ints (`self.input_size = ((lo,lo),(hi,hi))`, area sampled as
a squared edge), a scalar pair of floats (area sampled relative to the image
area), or a pair of two-element tuples (explicit width/height ranges, stored
as a flat 4-tuple with `self.ratio = None`). -/
inductive RRCInputSize where
  | sint (lo hi : ℤ)
  | sfloat (lo hi : ℚ)
  | pairs (minw minh maxw maxh : PyNum)

/-- Parameters of `RandomResizedCrop` after construction; `aspectRange` models
`self.ratio` and is `none` exactly in the pair-of-pairs mode. -/
structure RandomResizedCropT where
  output_size : CropSize
  input_size : RRCInputSize
  aspectRange : Option (ℚ × ℚ)
  probability : ℚ
  random_attempts : ℕ

/-- Embeds `math.sqrt`, idealized over rationals via `Rat.sqrt` (exact on the
perfect squares at which the claims evaluate it). -/
def pySqrt (q : ℚ) : ℚ := Rat.sqrt q

/-- One attempt's worth of random draws in `RandomResizedCrop.__call__`:
the two `np.random.uniform` draws, the 50% swap draw, and the two
`np.random.randint` placement draws. -/
structure RRCDraw where
  d1 : ℚ
  d2 : ℚ
  swap : Bool
  colDraw : ℤ
  rowDraw : ℤ

/-- The `(target_width, target_height)` computed by one attempt of the
sampling loop of `RandomResizedCrop.__call__` (the `self.ratio is not None`
branch): `target_area` is the squared edge draw (int mode) or the relative
area draw times the image area (float mode); width and height are
`int(round(math.sqrt(...)))` and are swapped with 50% probability. The
pair-of-pairs mode cannot reach this branch (`self.ratio is None`); the
source's trailing `else` raises "unhandled crop strategy". -/
def rrcAttemptSize (insz : RRCInputSize) (H W : ℕ) (d : RRCDraw) :
    Except String (ℤ × ℤ) :=
  match insz with
  | .sint _ _ =>
    let target_area := d.d1 ^ 2
    let tw := pyRound (pySqrt (target_area * d.d2))
    let th := pyRound (pySqrt (target_area / d.d2))
    .ok (if d.swap then (th, tw) else (tw, th))
  | .sfloat _ _ =>
    let target_area := d.d1 * ((H : ℚ) * (W : ℚ))
    let tw := pyRound (pySqrt (target_area * d.d2))
    let th := pyRound (pySqrt (target_area / d.d2))
    .ok (if d.swap then (th, tw) else (tw, th))
  | .pairs _ _ _ _ => .error "unhandled crop strategy"

/-- The retry loop of `RandomResizedCrop.__call__`, starting at attempt `i`
with `rem` attempts left: stops at the first region that fits inside the
image (its top-left then comes from the placement draws), returns `none`
when the budget is exhausted. -/
def rrcLoop (insz : RRCInputSize) (H W : ℕ) (draws : ℕ → RRCDraw) :
    ℕ → ℕ → Except String (Option (ℤ × ℤ × ℤ × ℤ))
  | _, 0 => .ok none
  | i, rem + 1 =>
    match rrcAttemptSize insz H W (draws i) with
    | .error e => .error e
    | .ok (tw, th) =>
      if tw ≤ (W : ℤ) ∧ th ≤ (H : ℤ) then
        .ok (some (tw, th, (draws i).colDraw, (draws i).rowDraw))
      else rrcLoop insz H W draws (i + 1) rem

/-- Embeds `cv2.resize` on a rank-2-or-3 image with abstract pixels (external
primitive): the output has the requested size; pixel values stand in for the
interpolation kernel via index scaling. -/
def cvResizeImg (img : Img a) (ow oh : ℕ) : Img a :=
  ⟨oh, ow, fun i j => img.pix (i * img.H / max oh 1) (j * img.W / max ow 1)⟩

/-- Embeds `RandomResizedCrop.__call__`: the probability gate may return the input
unchanged; in pair-of-pairs mode `self.input_size[0][0]` subscripts a scalar
and raises; otherwise the retry loop runs, and on success the selected
region is cropped via `safe_crop` (`bval` models the default constant border
fill) and resized to the configured output size. When the loop exhausts its
budget, the source tests `image_height is None or image_width is None` — but
both were assigned from `sample.shape`, so the centered fallback is dead and
`target_col + target_width` evaluates `None + int`, a TypeError. -/
def RandomResizedCrop.call (t : RandomResizedCropT) (img : Img a) (bval : a)
    (gate : ℚ) (draws : ℕ → RRCDraw) : Except String (Img a) :=
  if t.probability < 1 ∧ gate > t.probability then .ok img
  else
    match t.aspectRange with
    | none => .error "TypeError: int object is not subscriptable"
    | some _ =>
      match rrcLoop t.input_size img.H img.W draws 0 t.random_attempts with
      | .error e => .error e
      | .ok (some (tw, th, col, row)) =>
        let crop := safe_crop img (col, row) (col + tw, row + th) bval
        match t.output_size with
        | .rel ow oh =>
          .ok (cvResizeImg crop (pyRound (ow * img.W)).toNat (pyRound (oh * img.H)).toNat)
        | .abs ow oh => .ok (cvResizeImg crop ow.toNat oh.toNat)
      | .ok none =>
        if (some img.H = none ∨ some img.W = none) then
          -- the source's centered-square fallback, kept verbatim but dead
          let side : ℤ := min (img.H : ℤ) (img.W : ℤ)
          let col := ((img.W : ℤ) - side) / 2
          let row := ((img.H : ℤ) - side) / 2
          let crop := safe_crop img (col, row) (col + side, row + side) bval
          match t.output_size with
          | .rel ow oh =>
            .ok (cvResizeImg crop (pyRound (ow * img.W)).toNat (pyRound (oh * img.H)).toNat)
          | .abs ow oh => .ok (cvResizeImg crop ow.toNat oh.toNat)
        else .error "TypeError: unsupported operand types for +: NoneType and int"

theorem pySlice_H (img : Img a) (t b l r : ℤ) :
    (pySlice img t b l r).H = effIdx b img.H - effIdx t img.H := rfl

theorem pySlice_W (img : Img a) (t b l r : ℤ) :
    (pySlice img t b l r).W = effIdx r img.W - effIdx l img.W := rfl

theorem copyMakeBorder_H (img : Img a) (top bottom left right : ℕ) (bval : a) :
    (copyMakeBorder img top bottom left right bval).H = img.H + top + bottom := rfl

theorem copyMakeBorder_W (img : Img a) (top bottom left right : ℕ) (bval : a) :
    (copyMakeBorder img top bottom left right bval).W = img.W + left + right := rfl

/-- C3: for every image and every absolute positive integer crop size
`(w, h)`, the output of `CenterCrop.__call__` has spatial shape exactly
`(h, w)`, including when the input image is smaller than the crop (the
border-padding path of `safe_crop`). -/
theorem centerCrop_abs_shape (a : Type) (img : Img a) (w h : ℤ) (bval : a)
    (hw : 1 ≤ w) (hh : 1 ≤ h) :
    (CenterCrop.call ⟨CropSize.abs w h, bval⟩ img).H = h.toNat ∧
    (CenterCrop.call ⟨CropSize.abs w h, bval⟩ img).W = w.toNat := by
  simp only [CenterCrop.call, safe_crop]
  split_ifs <;>
    simp only [pySlice_H, pySlice_W, copyMakeBorder_H, copyMakeBorder_W, effIdx] <;>
    constructor <;> split_ifs <;> omega

/-- Witness for C3 at a concrete input: a 4x4 crop of a 10x10 image and of a
2x2 image (padding path) both have the requested shape. -/
theorem centerCrop_abs_shape_witness :
    ((1 : ℤ) ≤ 4 ∧
      (CenterCrop.call ⟨CropSize.abs 4 4, (0 : ℕ)⟩ ⟨10, 10, fun _ _ => 0⟩).H = 4 ∧
      (CenterCrop.call ⟨CropSize.abs 4 4, (0 : ℕ)⟩ ⟨10, 10, fun _ _ => 0⟩).W = 4) ∧
    ((CenterCrop.call ⟨CropSize.abs 4 4, (0 : ℕ)⟩ ⟨2, 2, fun _ _ => 0⟩).H = 4 ∧
      (CenterCrop.call ⟨CropSize.abs 4 4, (0 : ℕ)⟩ ⟨2, 2, fun _ _ => 0⟩).W = 4) :=
  ⟨⟨by norm_num,
    centerCrop_abs_shape ℕ ⟨10, 10, fun _ _ => 0⟩ 4 4 0 (by norm_num) (by norm_num)⟩,
    centerCrop_abs_shape ℕ ⟨2, 2, fun _ _ => 0⟩ 4 4 0 (by norm_num) (by norm_num)⟩

/-- C2: for every image and every optional mask, `Tile.count_tiles` returns
exactly the length of the tile list `Tile.__call__` returns for the same
inputs (and errors exactly when `__call__` errors). -/
theorem tile_count_tiles_eq_call_length (a : Type) (t : TileT a) (img : Img a)
    (mask : Option (Img ℕ)) :
    Tile.count_tiles t img mask = (Tile.call t img mask).map List.length := by
  unfold Tile.count_tiles Tile.call
  cases Tile.getTileRects t img mask with
  | error e => rfl
  | ok rects => simp [Except.map, List.length_map]

/-- C5 counterexample: with tile size `6` and overlap ratio `1/2`, the pixel
overlap is `round(6 * 0.5) = 3`, so the claimed step `tile_size - overlap`
(min 1) is `3`, but `Tile._get_tile_rects` computes
`max(6 - (3 // 2) * 2, 1) = 4`. -/
theorem tileStep_claim_counterexample :
    tileStep 6 (1/2) = 4 ∧ max (6 - tileOverlapPx 6 (1/2)) 1 = 3 ∧
      tileStep 6 (1/2) ≠ max (6 - tileOverlapPx 6 (1/2)) 1 := by
  refine ⟨?_, ?_, ?_⟩ <;> norm_num [tileStep, tileOverlapPx, pyRound]

/-- C5 (amended): the grid step on each axis equals the resolved tile size
minus the per-axis pixel overlap rounded down to an even number
(`(overlap // 2) * 2`), with a minimum step of 1; equivalently, tile size
minus overlap when the overlap is even, and tile size minus overlap plus one
when the overlap is odd. -/
theorem tileStep_amended (ts : ℤ) (ovr : ℚ) :
    tileStep ts ovr =
      if tileOverlapPx ts ovr % 2 = 0
      then max (ts - tileOverlapPx ts ovr) 1
      else max (ts - tileOverlapPx ts ovr + 1) 1 := by
  unfold tileStep
  generalize tileOverlapPx ts ovr = o
  split_ifs <;> omega

/-- C10: once the tile size and the overlap (a float in `[0,1)`) are
accepted, `Tile.__init__` rejects a `min_mask_iou` that is negative or not a
float, and accepts every float `min_mask_iou >= 0` — including values
strictly greater than 1, because the third disjunct of the check tests
`tile_overlap > 1`, which the earlier validation has already made false. -/
theorem tile_init_min_mask_iou (a : Type) (bval : a) (ts : PySizeArg) (sz : CropSize)
    (ovq : ℚ) (offov : Bool) (hsz : resolveTileSize ts = .ok sz)
    (h0 : 0 ≤ ovq) (h1 : ovq < 1) :
    (∀ q : ℚ, 0 ≤ q →
      Tile.init bval ts (.pfloat ovq) (.pfloat q) offov =
        .ok ⟨sz, ovq, q, offov, bval⟩) ∧
    (∀ q : ℚ, q < 0 →
      ∃ e, Tile.init bval ts (.pfloat ovq) (.pfloat q) offov = .error e) ∧
    (∀ z : ℤ, ∃ e, Tile.init bval ts (.pfloat ovq) (.pint z) offov = .error e) := by
  unfold Tile.init
  rw [hsz]
  dsimp only
  have hov : ¬(¬(PyNum.pfloat ovq).isFloat ∨ (PyNum.pfloat ovq).val < 0 ∨
      1 ≤ (PyNum.pfloat ovq).val) := by
    push_neg
    exact ⟨rfl, h0, h1⟩
  refine ⟨fun q hq => ?_, fun q hq => ?_, fun z => ?_⟩
  · have hmi : ¬(¬(PyNum.pfloat q).isFloat ∨ (PyNum.pfloat q).val < 0 ∨
        1 < (PyNum.pfloat ovq).val) := by
      push_neg
      exact ⟨rfl, hq, le_of_lt h1⟩
    rw [if_neg hov, if_neg hmi]
    rfl
  · rw [if_neg hov, if_pos (Or.inr (Or.inl (show (PyNum.pfloat q).val < 0 from hq)))]
    exact ⟨_, rfl⟩
  · rw [if_neg hov, if_pos (Or.inl (by simp [PyNum.isFloat]))]
    exact ⟨_, rfl⟩

/-- Witness for C10: with tile size 4 and overlap 0.5, construction succeeds
for `min_mask_iou = 2.0` (a float greater than 1) and fails for
`min_mask_iou = -1.0` and for the integer `1`. -/
theorem tile_init_min_mask_iou_witness :
    Tile.init (0 : ℕ) (.scalar (.pint 4)) (.pfloat (1/2)) (.pfloat 2) false =
      .ok ⟨.abs 4 4, 1/2, 2, false, 0⟩ ∧
    (∃ e, Tile.init (0 : ℕ) (.scalar (.pint 4)) (.pfloat (1/2)) (.pfloat (-1)) false =
      .error e) ∧
    (∃ e, Tile.init (0 : ℕ) (.scalar (.pint 4)) (.pfloat (1/2)) (.pint 1) false =
      .error e) :=
  have h := tile_init_min_mask_iou ℕ 0 (.scalar (.pint 4)) (.abs 4 4) (1/2) false
    rfl (by norm_num) (by norm_num)
  ⟨h.1 2 (by norm_num), h.2.1 (-1) (by norm_num), h.2.2 1⟩

theorem normInv_normFwd (px ms ss : List ℚ) (hlen : px.length = ms.length)
    (hlen2 : ms.length = ss.length) (hs : ∀ s ∈ ss, s ≠ 0) :
    normInv (normFwd px ms ss) ms ss = px := by
  induction px generalizing ms ss with
  | nil =>
    cases ms with
    | nil => cases ss <;> rfl
    | cons m ms => cases hlen
  | cons v vs ih =>
    cases ms with
    | nil => cases hlen
    | cons m ms =>
      cases ss with
      | nil => cases hlen2
      | cons s ss =>
        have hs0 : s ≠ 0 := hs s (List.mem_cons_self s ss)
        simp only [normFwd, normInv, List.cons.injEq]
        constructor
        · field_simp
        · exact ih ms ss (by simpa using hlen) (by simpa using hlen2)
            fun x hx => hs x (List.mem_cons_of_mem s hx)

/-- C4: for every sample (a list of channel vectors of the right width) and
every parameter set accepted by construction (non-zero std, non-zero
max - min), the inverts of both normalizers reconstruct the sample exactly
(floats idealized as exact rationals, so "exact up to the precision of the
output numeric type" holds with no rounding error at all). -/
theorem normalize_roundtrip (mean std mn mx : List ℚ)
    (t1 : NormalizeZeroMeanUnitVarT) (t2 : NormalizeMinMaxT)
    (sample : List (List ℚ))
    (h1 : NormalizeZeroMeanUnitVar.init mean std = .ok t1)
    (h2 : NormalizeMinMax.init mn mx = .ok t2)
    (hpx1 : ∀ px ∈ sample, px.length = mean.length)
    (hpx2 : ∀ px ∈ sample, px.length = mn.length) :
    NormalizeZeroMeanUnitVar.invert t1 (NormalizeZeroMeanUnitVar.call t1 sample) = sample ∧
    NormalizeMinMax.invert t2 (NormalizeMinMax.call t2 sample) = sample := by
  unfold NormalizeZeroMeanUnitVar.init at h1
  unfold NormalizeMinMax.init at h2
  split_ifs at h1 with hlen1 hz1
  split_ifs at h2 with hlen2 hz2
  cases h1
  cases h2
  rw [not_not] at hlen1 hlen2
  have hstd : ∀ s ∈ std, s ≠ 0 := by
    intro s hs
    by_contra hc
    exact hz1 (List.any_eq_true.mpr ⟨s, hs, by simp [hc]⟩)
  have hdiff : ∀ d ∈ List.zipWith (fun a b => a - b) mx mn, d ≠ 0 := by
    intro d hd
    by_contra hc
    exact hz2 (List.any_eq_true.mpr ⟨d, hd, by simp [hc]⟩)
  have hdlen : mn.length = (List.zipWith (fun a b => a - b) mx mn).length := by
    rw [List.length_zipWith, ← hlen2, min_self]
  constructor
  · unfold NormalizeZeroMeanUnitVar.call NormalizeZeroMeanUnitVar.invert
    rw [List.map_map]
    exact (List.map_congr_left fun px hpx =>
      normInv_normFwd px mean std (hpx1 px hpx) hlen1 hstd).trans (List.map_id sample)
  · unfold NormalizeMinMax.call NormalizeMinMax.invert
    rw [List.map_map]
    exact (List.map_congr_left fun px hpx =>
      normInv_normFwd px mn _ (hpx2 px hpx) hdlen hdiff).trans (List.map_id sample)

/-- Witness for C4: mean [1] / std [2] and min [0] / max [255] round-trip the
sample `[127]` exactly (the spec scenario `forward(127) = 127/255`). -/
theorem normalize_roundtrip_witness :
    NormalizeZeroMeanUnitVar.invert ⟨[1], [2]⟩
        (NormalizeZeroMeanUnitVar.call ⟨[1], [2]⟩ [[127]]) = [[127]] ∧
    NormalizeMinMax.invert ⟨[0], [255], [255 - 0]⟩
        (NormalizeMinMax.call ⟨[0], [255], [255 - 0]⟩ [[127]]) = [[127]] :=
  normalize_roundtrip [1] [2] [0] [255] ⟨[1], [2]⟩ ⟨[0], [255], [255 - 0]⟩ [[127]]
    (by norm_num [NormalizeZeroMeanUnitVar.init])
    (by norm_num [NormalizeMinMax.init])
    (by intro px hpx; rw [List.mem_singleton.mp hpx]; rfl)
    (by intro px hpx; rw [List.mem_singleton.mp hpx]; rfl)

/-- C8: for every sample and every accepted count `k > 0`,
`Duplicator.__call__` returns a list of length exactly `k`; `invert` on a
list of length exactly `k` returns its first element (the original sample
when fed `__call__`'s output), and `invert` raises on a non-list input and
on a list of any other length. -/
theorem duplicator_spec (a : Type) (cz : ℤ) (dp : Bool) (t : DuplicatorT)
    (x : PySample a) (_hinit : Duplicator.init cz dp = .ok t) :
    (∃ l, Duplicator.call t x = PySample.list l ∧ l.length = t.count) ∧
    (∀ (x0 : PySample a) (l : List (PySample a)), (x0 :: l).length = t.count →
      Duplicator.invert t (.list (x0 :: l)) = .ok x0) ∧
    (∀ y : a, ∃ e, Duplicator.invert t (.item y) = .error e) ∧
    (∀ l : List (PySample a), l.length ≠ t.count →
      ∃ e, Duplicator.invert t (.list l) = .error e) := by
  refine ⟨⟨List.replicate t.count x, rfl, List.length_replicate t.count x⟩,
    fun x0 l hl => ?_, fun y => ⟨_, rfl⟩, fun l hl => ?_⟩
  · unfold Duplicator.invert
    dsimp only
    rw [if_pos hl]
  · unfold Duplicator.invert
    dsimp only
    rw [if_neg hl]
    exact ⟨_, rfl⟩

/-- Witness for C8 with `count = 3`: `__call__` fans out to three copies,
`invert` returns the first element of a 3-element list, and raises on a
non-list and on a 2-element list. -/
theorem duplicator_spec_witness :
    (∃ l, Duplicator.call ⟨3, false⟩ (PySample.item (0 : ℕ)) = PySample.list l ∧
      l.length = 3) ∧
    Duplicator.invert ⟨3, false⟩
      (.list [.item (0 : ℕ), .item 1, .item 2]) = .ok (.item 0) ∧
    (∃ e, Duplicator.invert ⟨3, false⟩ (.item (5 : ℕ)) = .error e) ∧
    (∃ e, Duplicator.invert ⟨3, false⟩
      (.list [.item (0 : ℕ), .item 1]) = .error e) :=
  have h := duplicator_spec ℕ 3 false ⟨3, false⟩ (PySample.item 0) rfl
  ⟨h.1, h.2.1 (.item 0) [.item 1, .item 2] rfl, h.2.2.1 5,
    h.2.2.2 [.item 0, .item 1] (by decide)⟩

theorem foldlM_invertStep_error (s : Type) (l : List (TransformOp s)) (smp : s)
    (h : ∃ t ∈ l, t.inv? = none) :
    ∃ e, l.foldlM invertStep smp = .error e := by
  induction l generalizing smp with
  | nil => simp at h
  | cons t l ih =>
    rcases h with ⟨t', ht', hnone⟩
    rcases List.mem_cons.mp ht' with heq | hmem
    · subst heq
      exact ⟨"missing invert op for transform",
        by simp [List.foldlM_cons, invertStep, hnone, Bind.bind, Except.bind]⟩
    · cases hfs : invertStep smp t with
      | error e => exact ⟨e, by simp [List.foldlM_cons, hfs, Bind.bind, Except.bind]⟩
      | ok smp' =>
        obtain ⟨e, he⟩ := ih smp' ⟨t', hmem, hnone⟩
        exact ⟨e, by simp [List.foldlM_cons, hfs, Bind.bind, Except.bind, he]⟩

/-- C7: `Compose.invert` applies each stage's `invert` in reverse
construction order (the last-constructed stage is inverted first, then the
rest of the pipeline), and it returns an error whenever any stage of the
chain lacks invert support, even when other stages do support invert. -/
theorem compose_invert_spec (s : Type) :
    (∀ (ts : List (TransformOp s)) (t : TransformOp s) (smp : s),
      Compose.invert (ts ++ [t]) smp =
        (invertStep smp t).bind (Compose.invert ts)) ∧
    (∀ (ts : List (TransformOp s)) (smp : s),
      (∃ t ∈ ts, t.inv? = none) → ∃ e, Compose.invert ts smp = .error e) := by
  constructor
  · intro ts t smp
    unfold Compose.invert
    rw [List.reverse_append]
    cases hfs : invertStep smp t with
    | error e => simp [List.foldlM_cons, hfs, Bind.bind, Except.bind]
    | ok smp' => simp [List.foldlM_cons, hfs, Bind.bind, Except.bind]
  · intro ts smp h
    exact foldlM_invertStep_error s ts.reverse smp
      (by rcases h with ⟨t, ht, hn⟩; exact ⟨t, List.mem_reverse.mpr ht, hn⟩)

/-- Witness for C7: reverse-order application at a concrete two-stage
pipeline, and failure of a three-stage pipeline whose middle stage lacks
invert support while the outer two support it. -/
theorem compose_invert_spec_witness :
    (Compose.invert ([invertibleOp] ++ [invertibleOp]) 5 =
      (invertStep 5 invertibleOp).bind (Compose.invert [invertibleOp])) ∧
    (∃ e, Compose.invert [invertibleOp, nonInvertibleOp, invertibleOp] 7 =
      .error e) :=
  ⟨(compose_invert_spec ℤ).1 [invertibleOp] invertibleOp 5,
    (compose_invert_spec ℤ).2 [invertibleOp, nonInvertibleOp, invertibleOp] 7
      ⟨nonInvertibleOp, List.mem_cons_of_mem _ (List.mem_cons_self _ _), rfl⟩⟩

/-- C6 (divergence witness for the code bug): for every 3-D image with more
than 4 channels, `Resize.__call__` raises instead of returning a per-group
resized and restacked image of the configured size — the split-resize branch
subscripts the Python built-in `slice` type. -/
theorem resize_many_channels_raises (a : Type) (t : ResizeT) (img : NdImg a)
    (c : ℕ) (hc : img.chans = some c) (h4 : 4 < c) :
    ∃ e, Resize.call t img = .error e := by
  unfold Resize.call
  rw [hc]
  dsimp only
  rw [if_neg (by omega)]
  exact ⟨_, rfl⟩

/-- Witness for C6: a 16x16 image with 5 channels makes `Resize.__call__`
error under an 8x8 destination size. -/
theorem resize_many_channels_raises_witness :
    ∃ e, Resize.call ⟨(8, 8), 0, 0, false⟩ ⟨16, 16, some 5, fun _ _ _ => (0 : ℕ)⟩ =
      .error e :=
  resize_many_channels_raises ℕ ⟨(8, 8), 0, 0, false⟩
    ⟨16, 16, some 5, fun _ _ _ => 0⟩ 5 rfl (by norm_num)

theorem foldl_set_length (ks : List ℕ) (acc : List ℕ) (f g : ℕ → ℕ) :
    (ks.foldl (fun acc k => acc.set (f k) (g k)) acc).length = acc.length := by
  induction ks generalizing acc with
  | nil => rfl
  | cons k ks ih => rw [List.foldl_cons, ih, List.length_set]

theorem foldl_set_preserve (ks : List ℕ) (acc : List ℕ) (f g : ℕ → ℕ) (p : ℕ)
    (hp : p < acc.length) (h : ∀ k ∈ ks, f k ≠ p) :
    (ks.foldl (fun acc k => acc.set (f k) (g k)) acc).getD p 0 = acc.getD p 0 := by
  induction ks generalizing acc with
  | nil => rfl
  | cons k ks ih =>
    rw [List.foldl_cons]
    rw [ih (acc.set (f k) (g k)) (by simpa using hp)
      fun k' hk' => h k' (List.mem_cons_of_mem k hk')]
    rw [List.getD_eq_getElem _ _ (by simpa using hp), List.getD_eq_getElem _ _ hp]
    exact List.getElem_set_of_ne (h k (List.mem_cons_self k ks)) _ ..

theorem foldl_set_get (ks : List ℕ) (acc : List ℕ) (f g : ℕ → ℕ) (k0 : ℕ)
    (hnd : ks.Nodup) (hk : k0 ∈ ks)
    (hinj : ∀ k ∈ ks, k ≠ k0 → f k ≠ f k0) (hlt : f k0 < acc.length) :
    (ks.foldl (fun acc k => acc.set (f k) (g k)) acc).getD (f k0) 0 = g k0 := by
  induction ks generalizing acc with
  | nil => cases hk
  | cons k ks ih =>
    rw [List.foldl_cons]
    rcases List.mem_cons.mp hk with heq | hmem
    · subst heq
      have hk0ks : k0 ∉ ks := (List.nodup_cons.mp hnd).1
      rw [foldl_set_preserve ks _ f g (f k0) (by simpa using hlt)
        fun k' hk' => hinj k' (List.mem_cons_of_mem k0 hk')
          (fun hc => hk0ks (hc ▸ hk'))]
      rw [List.getD_eq_getElem _ _ (by simpa using hlt)]
      exact List.getElem_set_self ..
    · exact ih (acc.set (f k) (g k)) (List.nodup_cons.mp hnd).2 hmem
        (fun k' hk' => hinj k' (List.mem_cons_of_mem k hk')) (by simpa using hlt)

theorem permAssign_length (ax vals : List ℕ) :
    (permAssign ax vals).length = ax.length := by
  unfold permAssign
  rw [foldl_set_length, List.length_replicate]

theorem permAssign_get (ax vals : List ℕ)
    (hinj : ∀ k' < ax.length, ∀ k < ax.length, k' ≠ k →
      ax.getD k' 0 ≠ ax.getD k 0)
    (k : ℕ) (hk : k < ax.length) (hbd : ax.getD k 0 < ax.length) :
    (permAssign ax vals).getD (ax.getD k 0) 0 = vals.getD k 0 := by
  unfold permAssign
  exact foldl_set_get (List.range ax.length) _ _ _ k (List.nodup_range _)
    (List.mem_range.mpr hk)
    (fun k' hk' hne => hinj k' (List.mem_range.mp hk') k hk hne)
    (by simpa using hbd)

/-- C9: for every array whose rank matches the axes permutation accepted by
`Transpose.__init__`, `Transpose.invert (Transpose.__call__ x)` equals `x`:
the stored inverse permutation composed with the forward permutation is the
identity on axis order. -/
theorem transpose_roundtrip (a : Type) (axes : List ℕ) (t : TransposeT)
    (arr : NdArray a) (hinit : Transpose.init axes = .ok t) (hnd : axes.Nodup)
    (hrank : arr.shape.length = axes.length) :
    NdArray.equiv (Transpose.invert t (Transpose.call t arr)) arr := by
  unfold Transpose.init at hinit
  split_ifs at hinit with hob
  cases hinit
  have hbd : ∀ x ∈ axes, x < axes.length := by
    intro x hx
    by_contra hc
    exact hob (List.any_eq_true.mpr ⟨x, hx, by simpa using Nat.le_of_not_lt hc⟩)
  have hinj : ∀ k' < axes.length, ∀ k < axes.length, k' ≠ k →
      axes.getD k' 0 ≠ axes.getD k 0 := by
    intro k' hk' k hk hne
    rw [List.getD_eq_getElem _ _ hk', List.getD_eq_getElem _ _ hk]
    intro hc
    exact hne (List.Nodup.getElem_inj_iff hnd |>.mp hc)
  have hsurj : ∀ m < axes.length, ∃ k, k < axes.length ∧ axes.getD k 0 = m := by
    intro m hm
    have hsub : axes.toFinset ⊆ Finset.range axes.length := fun x hx =>
      Finset.mem_range.mpr (hbd x (List.mem_toFinset.mp hx))
    have hcard : axes.toFinset.card = axes.length := List.toFinset_card_of_nodup hnd
    have hfeq : axes.toFinset = Finset.range axes.length :=
      Finset.eq_of_subset_of_card_le hsub (by simp [hcard])
    have hmem : m ∈ axes := List.mem_toFinset.mp (hfeq ▸ Finset.mem_range.mpr hm)
    obtain ⟨k, hk, hak⟩ := List.mem_iff_getElem.mp hmem
    exact ⟨k, hk, by rw [List.getD_eq_getElem _ _ hk]; exact hak⟩
  have hIlen : (permAssign axes (List.range axes.length)).length = axes.length :=
    permAssign_length _ _
  have hgetbd : ∀ k < axes.length, axes.getD k 0 < axes.length := by
    intro k hk
    rw [List.getD_eq_getElem _ _ hk]
    exact hbd _ (List.getElem_mem _)
  have hF2 : ∀ k < axes.length,
      (permAssign axes (List.range axes.length)).getD (axes.getD k 0) 0 = k := by
    intro k hk
    rw [permAssign_get axes _ hinj k hk (hgetbd k hk)]
    rw [List.getD_eq_getElem _ _ (by simpa using hk)]
    simp
  have hF4 : ∀ m < axes.length,
      axes.getD ((permAssign axes (List.range axes.length)).getD m 0) 0 = m := by
    intro m hm
    obtain ⟨k, hk, hak⟩ := hsurj m hm
    calc axes.getD ((permAssign axes (List.range axes.length)).getD m 0) 0
        = axes.getD ((permAssign axes
            (List.range axes.length)).getD (axes.getD k 0) 0) 0 := by rw [hak]
      _ = axes.getD k 0 := by rw [hF2 k hk]
      _ = m := hak
  have hF5 : ∀ m < axes.length,
      (permAssign axes (List.range axes.length)).getD m 0 < axes.length := by
    intro m hm
    obtain ⟨k, hk, hak⟩ := hsurj m hm
    rw [← hak, hF2 k hk]
    exact hk
  have hF6 : ∀ j' < (permAssign axes (List.range axes.length)).length,
      ∀ j < (permAssign axes (List.range axes.length)).length, j' ≠ j →
      (permAssign axes (List.range axes.length)).getD j' 0 ≠
        (permAssign axes (List.range axes.length)).getD j 0 := by
    intro j' hj' j hj hne hc
    rw [hIlen] at hj hj'
    have hj'2 := hF4 j' hj'
    rw [hc, hF4 j hj] at hj'2
    exact hne hj'2.symm
  have hmapget : ∀ j < axes.length,
      (axes.map fun k => arr.shape.getD k 0).getD j 0 =
        arr.shape.getD (axes.getD j 0) 0 := by
    intro j hj
    rw [List.getD_eq_getElem _ _ (by simpa using hj), List.getElem_map,
      List.getD_eq_getElem _ _ hj]
  unfold Transpose.invert Transpose.call npTranspose NdArray.equiv
  dsimp only
  constructor
  · apply List.ext_getElem (by simp [hIlen, hrank])
    intro i h1 h2
    have hi : i < axes.length := by simpa [hIlen] using h1
    rw [List.getElem_map]
    rw [← List.getD_eq_getElem (permAssign axes (List.range axes.length)) 0
      (by rw [hIlen]; exact hi)]
    rw [hmapget _ (hF5 i hi), hF4 i hi]
    exact List.getD_eq_getElem _ _ h2
  · intro idx hlen
    have hidxlen : idx.length = axes.length := by simpa [hIlen] using hlen
    have hkey : permAssign axes
        (permAssign (permAssign axes (List.range axes.length)) idx) = idx := by
      apply List.ext_getElem (by rw [permAssign_length, hidxlen])
      intro m h1 h2
      have hm : m < axes.length := by simpa [permAssign_length] using h1
      rw [← List.getD_eq_getElem _ 0 h1, ← List.getD_eq_getElem idx 0 h2]
      obtain ⟨k, hk, hak⟩ := hsurj m hm
      have hIm : (permAssign axes (List.range axes.length)).getD m 0 = k := by
        rw [← hak, hF2 k hk]
      calc (permAssign axes
              (permAssign (permAssign axes (List.range axes.length)) idx)).getD m 0
          = (permAssign axes
              (permAssign (permAssign axes (List.range axes.length)) idx)).getD
                (axes.getD k 0) 0 := by rw [hak]
        _ = (permAssign (permAssign axes (List.range axes.length)) idx).getD k 0 :=
              permAssign_get axes _ hinj k hk (hgetbd k hk)
        _ = (permAssign (permAssign axes (List.range axes.length)) idx).getD
              ((permAssign axes (List.range axes.length)).getD m 0) 0 := by rw [hIm]
        _ = idx.getD m 0 :=
              permAssign_get _ idx hF6 m (by rw [hIlen]; exact hm)
                (by rw [hIlen]; exact hF5 m hm)
    rw [hkey]

/-- Witness for C9: the spec scenario `Transpose(axes=[1,0,2])` round-trips a
concrete 3-D array (the stored inverse permutation is `[1,0,2]` itself). -/
theorem transpose_roundtrip_witness :
    Transpose.init [1, 0, 2] = .ok ⟨[1, 0, 2], [1, 0, 2]⟩ ∧
    NdArray.equiv
      (Transpose.invert ⟨[1, 0, 2], [1, 0, 2]⟩
        (Transpose.call ⟨[1, 0, 2], [1, 0, 2]⟩ transposeDemoArr)) transposeDemoArr :=
  ⟨rfl, transpose_roundtrip ℕ [1, 0, 2] ⟨[1, 0, 2], [1, 0, 2]⟩
    transposeDemoArr rfl (by decide) rfl⟩

theorem rrcLoop_exhaust (insz : RRCInputSize) (H W : ℕ) (draws : ℕ → RRCDraw)
    (cnt : ℕ) :
    ∀ i : ℕ, (∀ j < cnt, ∀ tw th,
        rrcAttemptSize insz H W (draws (i + j)) = .ok (tw, th) →
        ¬(tw ≤ (W : ℤ) ∧ th ≤ (H : ℤ))) →
    rrcLoop insz H W draws i cnt = .ok none ∨
      ∃ e, rrcLoop insz H W draws i cnt = .error e := by
  induction cnt with
  | zero => intro i _; exact Or.inl rfl
  | succ rem ih =>
    intro i hfail
    unfold rrcLoop
    cases hatt : rrcAttemptSize insz H W (draws i) with
    | error e => exact Or.inr ⟨e, rfl⟩
    | ok twth =>
      obtain ⟨tw, th⟩ := twth
      have hnofit : ¬(tw ≤ (W : ℤ) ∧ th ≤ (H : ℤ)) :=
        hfail 0 (Nat.succ_pos rem) tw th (by simpa using hatt)
      dsimp only
      rw [if_neg hnofit]
      exact ih (i + 1) fun j hj tw' th' h =>
        hfail (j + 1) (by omega) tw' th' (by rw [show i + 1 + j = i + (j + 1) by omega] at h; exact h)

/-- C1 (divergence witness for the code bug): whenever the probability gate
passes and none of the sampled regions fits inside the image,
`RandomResizedCrop.__call__` raises (the fallback test reads
`image_height is None`, which is never true, so `target_col` is still `None`
when the crop coordinates are computed) instead of returning the centered
square crop the claim describes. -/
theorem rrc_exhausted_raises (a : Type) (t : RandomResizedCropT) (img : Img a)
    (bval : a) (gate : ℚ) (draws : ℕ → RRCDraw) (lohi : ℚ × ℚ)
    (hgate : ¬(t.probability < 1 ∧ gate > t.probability))
    (har : t.aspectRange = some lohi)
    (hfail : ∀ j < t.random_attempts, ∀ tw th,
        rrcAttemptSize t.input_size img.H img.W (draws j) = .ok (tw, th) →
        ¬(tw ≤ (img.W : ℤ) ∧ th ≤ (img.H : ℤ))) :
    ∃ e, RandomResizedCrop.call t img bval gate draws = .error e := by
  unfold RandomResizedCrop.call
  rw [if_neg hgate, har]
  dsimp only
  rcases rrcLoop_exhaust t.input_size img.H img.W draws t.random_attempts 0
      (by simpa using hfail) with hnone | ⟨e, he⟩
  · rw [hnone]
    dsimp only
    rw [if_neg (by simp)]
    exact ⟨_, rfl⟩
  · rw [he]
    exact ⟨e, rfl⟩

/-- Witness for C1: `RandomResizedCrop(output_size=(1,1), input_size=(10,10),
ratio=1.0, probability=1.0, random_attempts=2)` on a 2x2 image, with draws
that always sample a 10x10 region (which never fits), raises instead of
falling back to a centered crop. -/
theorem rrc_exhausted_raises_witness :
    ∃ e, RandomResizedCrop.call
      ⟨CropSize.abs 1 1, RRCInputSize.sint 10 10, some (1, 1), 1, 2⟩
      ⟨2, 2, fun _ _ => (0 : ℕ)⟩ 0 0 (fun _ => ⟨10, 1, false, 0, 0⟩) =
      .error e := by
  have hatt : rrcAttemptSize (RRCInputSize.sint 10 10) 2 2 ⟨10, 1, false, 0, 0⟩ =
      .ok (10, 10) := by
    unfold rrcAttemptSize pySqrt
    dsimp only
    have h100 : ((10 : ℚ) ^ 2 * 1) = 10 * 10 := by norm_num
    have h100' : ((10 : ℚ) ^ 2 / 1) = 10 * 10 := by norm_num
    rw [h100, h100', Rat.sqrt_eq]
    norm_num [pyRound]
  exact rrc_exhausted_raises ℕ
    ⟨CropSize.abs 1 1, RRCInputSize.sint 10 10, some (1, 1), 1, 2⟩
    ⟨2, 2, fun _ _ => 0⟩ 0 0 (fun _ => ⟨10, 1, false, 0, 0⟩) (1, 1)
    (by norm_num) rfl
    (by
      intro j hj tw th h
      rw [hatt] at h
      cases h
      norm_num)
